import Mathlib

/-!
Verification of the schema-driven validation and sanitization engine of the
Biblioteca repository (src/api-biblioteca/src/utils/validators.ts and
src/api-biblioteca/src/errors/ValidationError.ts).

The embedding models JavaScript runtime values as the inductive `Value`,
strings as `String` / `List Char`, thrown exceptions as the error side of
`Except JsError`, and the mutable `Validator` object as explicit state
(`VState`) threaded through the operations.  Regular expressions appearing
in the source are translated into executable character-level functions.
-/

/-- Character codes of the JavaScript `\s` class (also the set trimmed by
`String.prototype.trim`): tab, LF, VT, FF, CR, space, NBSP, Ogham space,
LS, PS, narrow NBSP, medium mathematical space, ideographic space, BOM,
plus the range U+2000..U+200A handled separately in `jsWS`. -/
def jsWsCodes : List Nat :=
  [9, 10, 11, 12, 13, 32, 160, 0x1680, 0x2028, 0x2029, 0x202f, 0x205f, 0x3000, 0xfeff]

/-- JavaScript whitespace predicate (the regex class `\s`). -/
def jsWS (c : Char) : Bool :=
  jsWsCodes.contains c.toNat || (0x2000 ≤ c.toNat && c.toNat ≤ 0x200a)

/-- Character codes of the class removed by `ValidationUtils.sanitizeString`:
the regex class is backtick ~ ! @ # $ % ^ & * ( ) _ | + - = ? ; : quote
double-quote , . < > curly-braces [ ] backslash slash. -/
def specialCodes : List Nat :=
  [96, 126, 33, 64, 35, 36, 37, 94, 38, 42, 40, 41, 95, 124, 43, 45, 61, 63,
   59, 58, 39, 34, 44, 46, 60, 62, 123, 125, 91, 93, 92, 47]

/-- Membership in the sanitizer's "dangerous special character" class. -/
def isSpecialChar (c : Char) : Bool := specialCodes.contains c.toNat

/-- A JavaScript runtime value, as far as the validation engine observes it.
Numbers are modelled as integers (no claim under verification involves
fractional values, NaN or infinities). -/
inductive Value where
  | vStr : String → Value
  | vNum : Int → Value
  | vBool : Bool → Value
  | vNull : Value
  | vUndefined : Value
  | vArr : List Value → Value
  | vObj : List (String × Value) → Value

/-- Model of `typeof v === 'string'`. -/
def Value.isStr : Value → Bool
  | .vStr _ => true
  | _ => false

mutual
/-- JavaScript `String(v)` conversion for the modelled value fragment.
Arrays stringify via `Array.prototype.join(',')`, plain objects give
`"[object Object]"`. -/
def jsToString : Value → String
  | .vStr s => s
  | .vNum n => toString n
  | .vBool b => if b then "true" else "false"
  | .vNull => "null"
  | .vUndefined => "undefined"
  | .vArr l => jsArrToString l
  | .vObj _ => "[object Object]"

/-- Model of `Array.prototype.join(',')` over stringified elements. -/
def jsArrToString : List Value → String
  | [] => ""
  | [v] => jsElemStr v
  | v :: rest => jsElemStr v ++ "," ++ jsArrToString rest

/-- Element stringification inside `Array.prototype.join`: `null` and
`undefined` become the empty string. -/
def jsElemStr : Value → String
  | .vNull => ""
  | .vUndefined => ""
  | v => jsToString v
end

/-- JavaScript strict equality `===` on the modelled fragment.  Arrays and
objects compare by reference in JavaScript; the engine only ever compares an
input value against schema-supplied `enum` constants, which are distinct
objects, so the model makes `===` false on them. -/
def jsEquals : Value → Value → Bool
  | .vStr a, .vStr b => a == b
  | .vNum a, .vNum b => a == b
  | .vBool a, .vBool b => a == b
  | .vNull, .vNull => true
  | .vUndefined, .vUndefined => true
  | _, _ => false

/-- The emptiness test used by `checkRule`:
`value === undefined || value === null || value === ''`. -/
def isEmptyVal : Value → Bool
  | .vUndefined => true
  | .vNull => true
  | .vStr s => s == ""
  | _ => false

/-- Field maps (`data` / `sanitizedData`) as insertion-ordered association
lists with unique keys, matching JavaScript object semantics. -/
abbrev FieldMap := List (String × Value)

/-- Property read `obj[field]`; a missing property reads as `undefined`
at use sites (see `getFieldVal`). -/
def lookupField : FieldMap → String → Option Value
  | [], _ => none
  | (g, w) :: tl, f => if g = f then some w else lookupField tl f

/-- Property write `obj[field] = v`: overwrite in place if the key exists
(JavaScript keeps the original insertion position), append otherwise. -/
def setField : FieldMap → String → Value → FieldMap
  | [], f, v => [(f, v)]
  | (g, w) :: tl, f, v => if g = f then (f, v) :: tl else (g, w) :: setField tl f v

/-! ## Sanitizer (`ValidationUtils.sanitizeString`) -/

/-- Model of `String.prototype.trim()`: drop JavaScript whitespace at both ends. -/
def jsTrim (cs : List Char) : List Char :=
  ((cs.dropWhile jsWS).reverse.dropWhile jsWS).reverse

/-- Scanner for `replace(/<[^>]*>/g, '')`.  In buffering mode (`some buf`)
we are inside a potential tag started by an unmatched so-far `<`; `buf`
holds the scanned characters in reverse.  A `>` closes and deletes the
span; end of input with an open buffer emits it unchanged (the regex
requires a closing `>`). -/
def rtGo : Option (List Char) → List Char → List Char
  | none, [] => []
  | some buf, [] => buf.reverse
  | none, c :: rest => if c = '<' then rtGo (some [c]) rest else c :: rtGo none rest
  | some buf, c :: rest => if c = '>' then rtGo none rest else rtGo (some (c :: buf)) rest

/-- Model of `replace(/<[^>]*>/g, '')`: remove angle-bracket tag spans. -/
def removeTags (cs : List Char) : List Char := rtGo none cs

/-- Scanner for `replace(/\s+/g, ' ')`.  The flag records whether we are
inside a whitespace run whose single replacement space was already
emitted. -/
def collapseAux : Bool → List Char → List Char
  | _, [] => []
  | inRun, c :: rest =>
    if jsWS c then (if inRun then [] else [' ']) ++ collapseAux true rest
    else c :: collapseAux false rest

/-- Model of `replace(/\s+/g, ' ')`: collapse each maximal whitespace run to one space. -/
def collapseWS (cs : List Char) : List Char := collapseAux false cs

/-- The final `replace` of `sanitizeString`: delete the special characters. -/
def removeSpecials (cs : List Char) : List Char := cs.filter (fun c => !isSpecialChar c)

/-- Model of `ValidationUtils.sanitizeString` on character lists: trim, strip tags,
collapse whitespace, remove special characters — in the source's order. -/
def sanitizeList (cs : List Char) : List Char :=
  removeSpecials (collapseWS (removeTags (jsTrim cs)))

/-- Model of `ValidationUtils.sanitizeString`. -/
def sanitizeString (s : String) : String := ⟨sanitizeList s.data⟩

/-! ## Checksum / format checkers (`Validator.validateCPF` … `validateISBN`) -/

/-- Numeric value of a decimal digit character. -/
def digitVal (c : Char) : Nat := c.toNat - 48

/-- JavaScript `parseInt` applied to a single character: a decimal digit
parses to its value, anything else gives `NaN` (modelled as `none`). -/
def jsParseIntChar (c : Char) : Option Nat :=
  if c.isDigit then some (digitVal c) else none

/-- Model of `value.replace(/\D/g, '')`: keep only decimal digits. -/
def stripNonDigits (s : String) : List Char := s.data.filter Char.isDigit

/-- The test `/^(\d)\1+$/`: a digit repeated at least twice filling the
whole string. -/
def allSameRun (cs : List Char) : Bool :=
  match cs with
  | [] => false
  | c :: rest => c.isDigit && !rest.isEmpty && rest.all (· == c)

/-- The CPF weighted-sum loop `sum += parseInt(cpf.charAt(i)) * (w - i)`
over a list of digit characters, with the weight counting down from `w`.
All characters fed to it are decimal digits (the `\D` strip ran first), so
`parseInt` is `digitVal`. -/
def cpfSum : List Char → Nat → Nat
  | [], _ => 0
  | c :: rest, w => digitVal c * w + cpfSum rest (w - 1)

/-- Model of `Validator.validateCPF` on the string payload (after the point where
`value.replace` has succeeded — see `validateCPF` for the throwing wrapper). -/
def validateCPFstr (s : String) : Bool :=
  let cpf := stripNonDigits s
  if cpf.length ≠ 11 then false
  else if allSameRun cpf then false
  else
    let sum1 := cpfSum (cpf.take 9) 10
    let remainder1 := sum1 % 11
    let digit1 := if remainder1 < 2 then 0 else 11 - remainder1
    if digitVal (cpf.getD 9 ' ') ≠ digit1 then false
    else
      let sum2 := cpfSum (cpf.take 10) 11
      let remainder2 := sum2 % 11
      let digit2 := if remainder2 < 2 then 0 else 11 - remainder2
      digitVal (cpf.getD 10 ' ') == digit2

/-- The CNPJ weighted-sum loop with its explicit weight vector. -/
def cnpjSum : List Char → List Nat → Nat
  | c :: rest, w :: ws => digitVal c * w + cnpjSum rest ws
  | _, _ => 0

/-- Model of `Validator.validateCNPJ` on the string payload. -/
def validateCNPJstr (s : String) : Bool :=
  let cnpj := stripNonDigits s
  if cnpj.length ≠ 14 then false
  else if allSameRun cnpj then false
  else
    let sum1 := cnpjSum (cnpj.take 12) [5, 4, 3, 2, 9, 8, 7, 6, 5, 4, 3, 2]
    let remainder1 := sum1 % 11
    let digit1 := if remainder1 < 2 then 0 else 11 - remainder1
    if digitVal (cnpj.getD 12 ' ') ≠ digit1 then false
    else
      let sum2 := cnpjSum (cnpj.take 13) [6, 5, 4, 3, 2, 9, 8, 7, 6, 5, 4, 3, 2]
      let remainder2 := sum2 % 11
      let digit2 := if remainder2 < 2 then 0 else 11 - remainder2
      digitVal (cnpj.getD 13 ' ') == digit2

/-- Model of `Validator.validateCEP` on the string payload. -/
def validateCEPstr (s : String) : Bool := (stripNonDigits s).length == 8

/-- Model of `Validator.validatePhone` on the string payload. -/
def validatePhonestr (s : String) : Bool :=
  let phone := stripNonDigits s
  10 ≤ phone.length && phone.length ≤ 11

/-- Model of `value.replace(/[-\s]/g, '')`: strip hyphens and whitespace. -/
def stripIsbn (s : String) : List Char :=
  s.data.filter (fun c => !(c == '-' || jsWS c))

/-- The ISBN-10 loop over the first nine characters: digit-parse each one,
bail out on `NaN`, weight counting down from 10. -/
def isbn9Sum : List Char → Nat → Option Nat
  | [], _ => some 0
  | c :: rest, w =>
    match jsParseIntChar c with
    | none => none
    | some d => (isbn9Sum rest (w - 1)).map (fun t => d * w + t)

/-- Value of the tenth ISBN-10 character after `toUpperCase()`:
`X` counts 10, a digit counts itself, anything else is `NaN`. -/
def isbn10LastVal (c : Char) : Option Nat :=
  if c.toUpper = 'X' then some 10 else jsParseIntChar c.toUpper

/-- Model of `Validator.validateISBN10` (callers guarantee a 10-character input). -/
def validateISBN10 (cs : List Char) : Bool :=
  match isbn9Sum (cs.take 9) 10 with
  | none => false
  | some s =>
    match isbn10LastVal (cs.getD 9 ' ') with
    | none => false
    | some l => (s + l) % 11 == 0

/-- The ISBN-13 loop: digit-parse every character, weight 1 at even
positions and 3 at odd positions, position counting from `i`. -/
def isbn13Sum : List Char → Nat → Option Nat
  | [], _ => some 0
  | c :: rest, i =>
    match jsParseIntChar c with
    | none => none
    | some d => (isbn13Sum rest (i + 1)).map (fun t => d * (if i % 2 = 0 then 1 else 3) + t)

/-- Model of `Validator.validateISBN13`. -/
def validateISBN13 (cs : List Char) : Bool :=
  match isbn13Sum cs 0 with
  | none => false
  | some s => s % 10 == 0

/-- Model of `Validator.validateISBN` on the string payload. -/
def validateISBNstr (s : String) : Bool :=
  let isbn := stripIsbn s
  if isbn.length = 10 then validateISBN10 isbn
  else if isbn.length = 13 then validateISBN13 isbn
  else false

/-- A thrown JavaScript exception. -/
inductive JsError where
  | typeError : String → JsError
  | thrown : String → JsError
deriving DecidableEq

/-- Model of `Validator.validateCPF(value)`: the first operation is
`value.replace(/\D/g, '')`, which throws `TypeError: value.replace is not a
function` whenever `value` is not a string. -/
def validateCPF : Value → Except JsError Bool
  | .vStr s => .ok (validateCPFstr s)
  | _ => .error (.typeError "value.replace is not a function")

/-- Model of `Validator.validateCNPJ(value)` (throws on non-strings, as `validateCPF`). -/
def validateCNPJ : Value → Except JsError Bool
  | .vStr s => .ok (validateCNPJstr s)
  | _ => .error (.typeError "value.replace is not a function")

/-- Model of `Validator.validateCEP(value)` (throws on non-strings, as `validateCPF`). -/
def validateCEP : Value → Except JsError Bool
  | .vStr s => .ok (validateCEPstr s)
  | _ => .error (.typeError "value.replace is not a function")

/-- Model of `Validator.validatePhone(value)` (throws on non-strings, as `validateCPF`). -/
def validatePhone : Value → Except JsError Bool
  | .vStr s => .ok (validatePhonestr s)
  | _ => .error (.typeError "value.replace is not a function")

/-- Model of `Validator.validateISBN(value)` (throws on non-strings: its first
operation is `value.replace(/[-\s]/g, '')`). -/
def validateISBN : Value → Except JsError Bool
  | .vStr s => .ok (validateISBNstr s)
  | _ => .error (.typeError "value.replace is not a function")

/-! ## Remaining type checkers and the rule model -/

/-- The `ValidationType` union of the source. -/
inductive ValidationType where
  | string | number | boolean | email | url | date | cpf | cnpj | cep
  | phone | isbn | uuid | json | base64 | password
deriving DecidableEq

/-- Model of `ValidationRule`.  `pattern` is the boolean test of the rule's regular
expression, `custom` may throw (modelled by `Except`), `transform` is a pure
value map (the schemas in the repository only use pure transforms), `enum`
is the allowed-value list. -/
structure Rule where
  type : ValidationType
  required : Bool := false
  min : Option Int := none
  max : Option Int := none
  pattern : Option (String → Bool) := none
  custom : Option (Value → Except JsError Bool) := none
  message : Option String := none
  transform : Option (Value → Value) := none
  enum : Option (List Value) := none

/-- Model of `Validator.validateString`. -/
def validateString (v : Value) (rule : Rule) : Bool :=
  match v with
  | .vStr s =>
    let str := jsTrim s.data
    if (match rule.min with
        | some m => decide ((str.length : Int) < m)
        | none => false) then false
    else if (match rule.max with
        | some m => decide ((str.length : Int) > m)
        | none => false) then false
    else true
  | _ => false

/-- JavaScript `Number(string)` restricted to the fragment this embedding
needs: optionally signed decimal integer literals surrounded by whitespace;
the empty (or all-whitespace) string is 0.  Fractional, hexadecimal,
exponent and `Infinity` forms of the full JavaScript grammar are outside
the model — no claim below depends on them. -/
def jsStringToNumber (s : String) : Option Int :=
  let t := jsTrim s.data
  if t.isEmpty then some 0
  else
    let (sign, digs) :=
      match t with
      | '-' :: rest => ((-1 : Int), rest)
      | '+' :: rest => ((1 : Int), rest)
      | _ => ((1 : Int), t)
    if digs.isEmpty then none
    else if digs.all Char.isDigit then
      some (sign * (digs.foldl (fun acc c => acc * 10 + (digitVal c : Int)) 0))
    else none

/-- JavaScript `Number(value)` (`ToNumber`) on the modelled fragment;
`none` is `NaN`.  Arrays and objects convert through their string form. -/
def toNumber : Value → Option Int
  | .vNum n => some n
  | .vBool b => some (if b then 1 else 0)
  | .vNull => some 0
  | .vUndefined => none
  | .vStr s => jsStringToNumber s
  | .vArr l => jsStringToNumber (jsToString (.vArr l))
  | .vObj l => jsStringToNumber (jsToString (.vObj l))

/-- Model of `Validator.validateNumber`. -/
def validateNumber (v : Value) (rule : Rule) : Bool :=
  match toNumber v with
  | none => false
  | some n =>
    if (match rule.min with
        | some m => decide (n < m)
        | none => false) then false
    else if (match rule.max with
        | some m => decide (n > m)
        | none => false) then false
    else true

/-- Model of `Validator.validateBoolean`. -/
def validateBoolean : Value → Bool
  | .vBool _ => true
  | .vStr s => s == "true" || s == "false" || s == "1" || s == "0"
  | .vNum n => n == 1 || n == 0
  | _ => false

/-- Split a character list at every occurrence of `sep` (occurrences are
delimiters; `n` separators give `n + 1` chunks). -/
def splitOnChar (sep : Char) : List Char → List (List Char)
  | [] => [[]]
  | c :: rest =>
    let r := splitOnChar sep rest
    if c = sep then [] :: r
    else
      match r with
      | chunk :: more => (c :: chunk) :: more
      | [] => [[c]]

/-- Whether some `.` occurs strictly inside the list (neither first nor
last position). -/
def hasInteriorDot (cs : List Char) : Bool :=
  match cs with
  | [] => false
  | _ :: t => t.dropLast.contains '.'

/-- The test of `/^[^\s@]+@[^\s@]+\.[^\s@]+$/`: exactly one `@`, nonempty
whitespace-free local part, and a domain part containing an interior dot.
(All three character classes exclude `@` and whitespace; the classes admit
dots, so the regex matches exactly these strings.) -/
def emailRegexTest (cs : List Char) : Bool :=
  match splitOnChar '@' cs with
  | [a, r] =>
    !a.isEmpty && a.all (fun c => !jsWS c) && r.all (fun c => !jsWS c) && hasInteriorDot r
  | _ => false

/-- Model of `Validator.validateEmail`: `emailRegex.test(String(value).toLowerCase())`. -/
def validateEmail (v : Value) : Bool :=
  emailRegexTest ((jsToString v).data.map Char.toLower)

/-- Approximate model of `new URL(value)` succeeding (the full WHATWG URL
parser is not embedded): requires an ASCII-alpha-led scheme followed by
`:`, and for the special schemes a `//`-prefixed nonempty host.  No claim
below depends on this value. -/
def urlParses (s : String) : Bool :=
  match s.data with
  | [] => false
  | c :: rest =>
    if c.isAlpha then
      let schemeRest := rest.takeWhile (fun c => c.isAlphanum || c = '+' || c = '-' || c = '.')
      let afterScheme := rest.drop schemeRest.length
      match afterScheme with
      | ':' :: tail =>
        let scheme := (c :: schemeRest).map Char.toLower
        if (⟨scheme⟩ : String) ∈ ["http", "https", "ws", "wss", "ftp"] then
          match tail with
          | '/' :: '/' :: host => !(host.takeWhile (fun c => c ≠ '/' && c ≠ '?' && c ≠ '#')).isEmpty
          | _ => false
        else true
      | _ => false
    else false

/-- Model of `Validator.validateUrl` (total: the source wraps `new URL` in
`try`/`catch`). -/
def validateUrl (v : Value) : Bool := urlParses (jsToString v)

/-- Approximate model of `new Date(string)` producing a valid date
(the platform date parser is not embedded): accepts `YYYY-MM-DD`-led
ISO-like strings.  No claim below depends on this value. -/
def dateStringParses (s : String) : Bool :=
  match s.data with
  | y1 :: y2 :: y3 :: y4 :: '-' :: m1 :: m2 :: '-' :: d1 :: d2 :: _ =>
    [y1, y2, y3, y4, m1, m2, d1, d2].all Char.isDigit
  | _ => false

/-- Model of `Validator.validateDate`: `!isNaN(new Date(value).getTime())`.
Numbers, booleans and `null` coerce to finite timestamps; `undefined`
gives `NaN`; strings go through the (approximated) date parser. -/
def validateDate : Value → Bool
  | .vNum _ => true
  | .vBool _ => true
  | .vNull => true
  | .vUndefined => false
  | .vStr s => dateStringParses s
  | .vArr l => dateStringParses (jsToString (.vArr l))
  | .vObj _ => false

/-- Lowercase-hexadecimal test for one character. -/
def isHexLower (c : Char) : Bool := c.isDigit || ('a' ≤ c && c ≤ 'f')

/-- The test of the UUID regex
`/^[0-9a-f]{8}-[0-9a-f]{4}-[1-5][0-9a-f]{3}-[89ab][0-9a-f]{3}-[0-9a-f]{12}$/i`,
applied to the lowercased input (the `i` flag). -/
def uuidRegexTest (cs : List Char) : Bool :=
  match splitOnChar '-' cs with
  | [a, b, c, d, e] =>
    a.length == 8 && b.length == 4 && c.length == 4 && d.length == 4 && e.length == 12 &&
    a.all isHexLower && b.all isHexLower && c.all isHexLower &&
    d.all isHexLower && e.all isHexLower &&
    (match c with
     | v :: _ => '1' ≤ v && v ≤ '5'
     | [] => false) &&
    (match d with
     | v :: _ => v = '8' || v = '9' || v = 'a' || v = 'b'
     | [] => false)
  | _ => false

/-- Model of `Validator.validateUUID`: `uuidRegex.test(value)` (regex `test`
stringifies its argument). -/
def validateUUID (v : Value) : Bool :=
  uuidRegexTest ((jsToString v).data.map Char.toLower)

/-- Approximate model of `JSON.parse(string)` succeeding (the full JSON
grammar is not embedded): accepts the scalar literals and bracket-balanced
structured text.  No claim below depends on this value. -/
def jsonStringParses (s : String) : Bool :=
  let t := jsTrim s.data
  if t.isEmpty then false
  else if t = "true".data || t = "false".data || t = "null".data then true
  else if (jsStringToNumber ⟨t⟩).isSome then true
  else
    match t with
    | '"' :: rest => rest.getLast? == some '"' && rest.length ≥ 1
    | '[' :: _ => t.getLast? == some ']'
    | '{' :: _ => t.getLast? == some '\x7d'
    | _ => false

/-- Model of `Validator.validateJSON`: any `typeof value === 'object'` value (arrays,
plain objects and `null`) is accepted outright; otherwise `JSON.parse` of
the stringified value decides, with `try`/`catch` making the checker total. -/
def validateJSON : Value → Bool
  | .vObj _ => true
  | .vArr _ => true
  | .vNull => true
  | .vStr s => jsonStringParses s
  | .vNum _ => true
  | .vBool _ => true
  | .vUndefined => false

/-- Value of a character in the standard base64 alphabet. -/
def b64Val (c : Char) : Option Nat :=
  if 'A' ≤ c && c ≤ 'Z' then some (c.toNat - 65)
  else if 'a' ≤ c && c ≤ 'z' then some (c.toNat - 97 + 26)
  else if c.isDigit then some (digitVal c + 52)
  else if c = '+' then some 62
  else if c = '/' then some 63
  else none

/-- The condition `btoa(atob(s)) === s`: `s` decodes without error and is
the canonical encoding of its decoding.  Canonical means: length a
multiple of 4, alphabet characters with `=` only as final padding, and the
bits left unused by the final quantum are zero (`btoa` always emits them
as zero). -/
def canonicalB64 (cs : List Char) : Bool :=
  if cs.isEmpty then true
  else if cs.length % 4 ≠ 0 then false
  else
    let pad := (cs.reverse.takeWhile (· = '=')).length
    let body := cs.take (cs.length - pad)
    if pad > 2 then false
    else if ¬body.all (fun c => (b64Val c).isSome) then false
    else
      match pad, body.getLast? with
      | 0, _ => true
      | 1, some c => ((b64Val c).getD 0) % 4 == 0
      | 2, some c => ((b64Val c).getD 0) % 16 == 0
      | _, _ => false

/-- Model of `Validator.validateBase64`: non-strings are rejected up front; strings
are accepted when they round-trip through `atob` then `btoa` unchanged. -/
def validateBase64 : Value → Bool
  | .vStr s => canonicalB64 s.data
  | _ => false

/-- The password symbol class `[!@#$%^&*(),.?":{}|<>]`. -/
def passwordSymbolCodes : List Nat :=
  [33, 64, 35, 36, 37, 94, 38, 42, 40, 41, 44, 46, 63, 34, 58, 123, 125, 124, 60, 62]

/-- Model of `Validator.validatePassword`.  `rule.min || 8` uses JavaScript
truthiness, so an explicit `min` of 0 also falls back to 8. -/
def validatePassword (v : Value) (rule : Rule) : Bool :=
  match v with
  | .vStr s =>
    let minLength : Int := match rule.min with
      | some m => if m == 0 then 8 else m
      | none => 8
    if (s.data.length : Int) < minLength then false
    else if ¬s.data.any (fun c => 'A' ≤ c && c ≤ 'Z') then false
    else if ¬s.data.any (fun c => 'a' ≤ c && c ≤ 'z') then false
    else if ¬s.data.any Char.isDigit then false
    else if ¬s.data.any (fun c => passwordSymbolCodes.contains c.toNat) then false
    else true
  | _ => false

/-! ## The rule engine (`Validator`) -/

/-- One entry of the `errors` list. -/
structure ErrorItem where
  field : String
  message : String
  value : Value
  code : String

/-- The `switch (rule.type)` of `checkRule`: dispatch to the type checker
and set the step's error message and code.  The cases `string`, `number`
and `boolean` leave the initial code `VALIDATION_FAILED`; every case sets
the message (`rule.message` wins when present).  The checkers that call
`value.replace` can throw, which propagates. -/
def typeCheckStep (field : String) (rule : Rule) (tv : Value) :
    Except JsError (Bool × String × String) :=
  match rule.type with
  | .string =>
    .ok (validateString tv rule, rule.message.getD (field ++ " deve ser uma string válida"),
         "VALIDATION_FAILED")
  | .number =>
    .ok (validateNumber tv rule, rule.message.getD (field ++ " deve ser um número válido"),
         "VALIDATION_FAILED")
  | .boolean =>
    .ok (validateBoolean tv, rule.message.getD (field ++ " deve ser verdadeiro ou falso"),
         "VALIDATION_FAILED")
  | .email =>
    .ok (validateEmail tv, rule.message.getD (field ++ " deve ser um email válido"),
         "INVALID_EMAIL")
  | .url =>
    .ok (validateUrl tv, rule.message.getD (field ++ " deve ser uma URL válida"),
         "INVALID_URL")
  | .date =>
    .ok (validateDate tv, rule.message.getD (field ++ " deve ser uma data válida"),
         "INVALID_DATE")
  | .cpf => do
    let b ← validateCPF tv
    .ok (b, rule.message.getD (field ++ " deve ser um CPF válido"), "INVALID_CPF")
  | .cnpj => do
    let b ← validateCNPJ tv
    .ok (b, rule.message.getD (field ++ " deve ser um CNPJ válido"), "INVALID_CNPJ")
  | .cep => do
    let b ← validateCEP tv
    .ok (b, rule.message.getD (field ++ " deve ser um CEP válido"), "INVALID_CEP")
  | .phone => do
    let b ← validatePhone tv
    .ok (b, rule.message.getD (field ++ " deve ser um telefone válido"), "INVALID_PHONE")
  | .isbn => do
    let b ← validateISBN tv
    .ok (b, rule.message.getD (field ++ " deve ser um ISBN válido"), "INVALID_ISBN")
  | .uuid =>
    .ok (validateUUID tv, rule.message.getD (field ++ " deve ser um UUID válido"),
         "INVALID_UUID")
  | .json =>
    .ok (validateJSON tv, rule.message.getD (field ++ " deve ser um JSON válido"),
         "INVALID_JSON")
  | .base64 =>
    .ok (validateBase64 tv, rule.message.getD (field ++ " deve ser uma string base64 válida"),
         "INVALID_BASE64")
  | .password =>
    .ok (validatePassword tv rule, rule.message.getD (field ++ " deve ser uma senha forte"),
         "WEAK_PASSWORD")

/-- Model of `rule.enum.join(', ')`. -/
def joinEnumVals (l : List Value) : String :=
  String.intercalate ", " (l.map jsElemStr)

/-- The value the steps of `checkRule` run on: `transform` applied when
present. -/
def transformedVal (rule : Rule) (value : Value) : Value :=
  match rule.transform with
  | some t => t value
  | none => value

/-- The step pipeline of `checkRule` after the transform: type dispatch,
then the custom, enum and pattern checks.  All of them run; each failing
one overwrites the pending message and code.  A throw from the type
checker or the custom predicate propagates. -/
def checkRuleErr (field : String) (rule : Rule) (tv : Value) :
    Except JsError (Option ErrorItem) :=
  match typeCheckStep field rule tv with
  | .error e => .error e
  | .ok (v0, m0, c0) =>
    let afterCustom : Except JsError (Bool × String × String) :=
      match rule.custom with
      | none => .ok (v0, m0, c0)
      | some f =>
        match f tv with
        | .error e => .error e
        | .ok true => .ok (v0, m0, c0)
        | .ok false =>
          .ok (false, rule.message.getD (field ++ " não passou na validação customizada"),
               "CUSTOM_VALIDATION_FAILED")
    match afterCustom with
    | .error e => .error e
    | .ok (v1, m1, c1) =>
      let (v2, m2, c2) :=
        match rule.enum with
        | some l =>
          if l.any (jsEquals tv) then (v1, m1, c1)
          else (false, rule.message.getD (field ++ " deve ser um dos valores: " ++ joinEnumVals l),
                "INVALID_ENUM_VALUE")
        | none => (v1, m1, c1)
      let (v3, m3, c3) :=
        match rule.pattern with
        | some p =>
          if p (jsToString tv) then (v2, m2, c2)
          else (false, rule.message.getD (field ++ " não corresponde ao padrão esperado"),
                "PATTERN_MISMATCH")
        | none => (v2, m2, c2)
      if v3 then .ok none else .ok (some ⟨field, m3, tv, c3⟩)

/-- Model of `Validator.checkRule`.  Returns the `sanitizedData` map (possibly
updated by `transform`) together with either a thrown exception or the
optional error item.  The transform write happens before any step that can
throw, so the updated map is returned in both outcomes. -/
def checkRule (field : String) (value : Value) (rule : Rule) (sd : FieldMap) :
    FieldMap × Except JsError (Option ErrorItem) :=
  if rule.required && isEmptyVal value then
    (sd, .ok (some ⟨field, rule.message.getD (field ++ " é obrigatório"), value, "REQUIRED"⟩))
  else if !rule.required && isEmptyVal value then
    (sd, .ok none)
  else
    let tv := transformedVal rule value
    let sd1 := match rule.transform with
      | some _ => setField sd field tv
      | none => sd
    (sd1, checkRuleErr field rule tv)

/-- The state of a `Validator` instance: the captured input, the error
accumulator and the sanitized copy. -/
structure VState where
  data : FieldMap
  errors : List ErrorItem
  sanitizedData : FieldMap

/-- The `Validator` constructor: `sanitizedData = { ...data }`. -/
def mkValidator (data : FieldMap) : VState := ⟨data, [], data⟩

/-- Model of `this.data[field]`: a missing property reads as `undefined`. -/
def getFieldVal (data : FieldMap) (f : String) : Value :=
  (lookupField data f).getD .vUndefined

/-- The rule loop of `validateField`: run `checkRule` on each rule in
order, push the first error and stop, propagate a thrown exception
together with the state at the moment of the throw. -/
def applyRules (st : VState) (field : String) (value : Value) :
    List Rule → Except (JsError × VState) VState
  | [] => .ok st
  | r :: rs =>
    match checkRule field value r st.sanitizedData with
    | (sd1, .error e) => .error (e, { st with sanitizedData := sd1 })
    | (sd1, .ok (some item)) =>
      .ok { st with sanitizedData := sd1, errors := st.errors ++ [item] }
    | (sd1, .ok none) => applyRules { st with sanitizedData := sd1 } field value rs

/-- Model of `Validator.validateField` (a single rule is the one-element list). -/
def validateField (st : VState) (field : String) (rules : List Rule) :
    Except (JsError × VState) VState :=
  applyRules st field (getFieldVal st.data field) rules

/-- Model of `Validator.validateFields`: apply `validateField` to each schema entry
in order; an exception aborts the remaining entries. -/
def validateFieldsGo (st : VState) : List (String × List Rule) → Except (JsError × VState) VState
  | [] => .ok st
  | (f, rs) :: rest =>
    match validateField st f rs with
    | .error p => .error p
    | .ok st1 => validateFieldsGo st1 rest

/-- One chained call on a `Validator`. -/
inductive Cmd where
  | vField : String → List Rule → Cmd
  | vFields : List (String × List Rule) → Cmd
  | customC : (FieldMap → Option ErrorItem) → Cmd

/-- Run one chained call.  `custom` applies an engine-level predicate over
the whole input and appends at most one error. -/
def runCmd (st : VState) : Cmd → Except (JsError × VState) VState
  | .vField f rs => validateField st f rs
  | .vFields sch => validateFieldsGo st sch
  | .customC f =>
    .ok (match f st.data with
         | some e => { st with errors := st.errors ++ [e] }
         | none => st)

/-- Run a chain of calls; a thrown exception aborts the rest of the chain. -/
def runCmds : VState → List Cmd → Except (JsError × VState) VState
  | st, [] => .ok st
  | st, c :: cs =>
    match runCmd st c with
    | .error p => .error p
    | .ok st1 => runCmds st1 cs

/-- Model of `ValidationResult`. -/
structure VResult where
  isValid : Bool
  errors : List ErrorItem
  sanitizedData : FieldMap

/-- Model of `Validator.getResult`. -/
def getResult (st : VState) : VResult :=
  ⟨st.errors.length == 0, st.errors, st.sanitizedData⟩

/-- The `ValidationError` class of `src/errors/ValidationError.ts`. -/
structure VError where
  name : String
  message : String
  errors : List ErrorItem
  statusCode : Int
  isOperational : Bool

/-- Model of `new ValidationError(message, errors)`: the omitted third constructor
argument defaults to `statusCode = 400`. -/
def ValidationError.make (message : String) (errors : List ErrorItem) : VError :=
  ⟨"ValidationError", message, errors, 400, true⟩

/-- Model of `Validator.throwIfInvalid`. -/
def throwIfInvalid (st : VState) (message : String) : Except VError Unit :=
  if (getResult st).isValid then .ok ()
  else .error (ValidationError.make message (getResult st).errors)

/-! ## Specification-side definitions

These definitions follow the wording of the specification/claims and are
compared with the source-derived definitions above. -/

/-- The claim's mod-11 check-digit rule: remainder < 2 gives 0, otherwise
11 minus the remainder. -/
def cpfCheckDigit (sum : Nat) : Nat :=
  if sum % 11 < 2 then 0 else 11 - sum % 11

/-- The CPF acceptance condition exactly as the claim states it: after
stripping non-digits the digit string has length 11, is not 11 copies of
one digit, the first check digit (weighted sum of the first 9 digits with
weights 10 down to 2) equals digit 10, and the second (first 10 digits,
weights 11 down to 2) equals digit 11. -/
def cpfClaimProp (s : String) : Prop :=
  let ds := (s.data.filter Char.isDigit).map digitVal
  ds.length = 11 ∧
  ds ≠ List.replicate 11 (ds.headD 0) ∧
  cpfCheckDigit (List.zipWith (· * ·) (ds.take 9) [10, 9, 8, 7, 6, 5, 4, 3, 2]).sum
    = ds.getD 9 0 ∧
  cpfCheckDigit (List.zipWith (· * ·) (ds.take 10) [11, 10, 9, 8, 7, 6, 5, 4, 3, 2]).sum
    = ds.getD 10 0

/-- Digit interpretation of a character list: every character must be a
decimal digit. -/
def parseDigits : List Char → Option (List Nat)
  | [] => some []
  | c :: rest =>
    match jsParseIntChar c with
    | none => none
    | some d => (parseDigits rest).map (fun ds => d :: ds)

/-- Digit interpretation of a 10-character ISBN as the claim states it:
the first nine characters must be decimal digits, the last may also be
`X` (valued 10). -/
def isbn10Vals (t : List Char) : Option (List Nat) :=
  match parseDigits (t.take 9) with
  | none => none
  | some ds =>
    match isbn10LastVal (t.getD 9 ' ') with
    | none => none
    | some l => some (ds ++ [l])

/-- The ISBN acceptance condition exactly as the claim states it: strip
hyphens and spaces; at length 10 the weighted sum with weights 10 down to
1 must be divisible by 11; at length 13 the sum with weights alternating
1,3 from position 0 must be divisible by 10; any other length rejects. -/
def isbnClaimProp (s : String) : Prop :=
  let t := stripIsbn s
  (t.length = 10 ∧ ∃ vs, isbn10Vals t = some vs ∧
      (List.zipWith (· * ·) vs [10, 9, 8, 7, 6, 5, 4, 3, 2, 1]).sum % 11 = 0) ∨
  (t.length = 13 ∧ ∃ vs, parseDigits t = some vs ∧
      (List.zipWith (· * ·) vs [1, 3, 1, 3, 1, 3, 1, 3, 1, 3, 1, 3, 1]).sum % 10 = 0)

/-- The message and code `checkRule` reports for a failing rule, as a
function of which steps failed: the LAST failing step among pattern, enum,
custom wins; if only the type step failed, the type step's message and
code stand. -/
def lastFailMsgCode (field : String) (rule : Rule) (tm tc : String)
    (customOk enumOk patOk : Bool) : String × String :=
  if !patOk then
    (rule.message.getD (field ++ " não corresponde ao padrão esperado"), "PATTERN_MISMATCH")
  else if !enumOk then
    (rule.message.getD (field ++ " deve ser um dos valores: " ++ joinEnumVals (rule.enum.getD [])),
     "INVALID_ENUM_VALUE")
  else if !customOk then
    (rule.message.getD (field ++ " não passou na validação customizada"),
     "CUSTOM_VALIDATION_FAILED")
  else (tm, tc)

/-- The transforms actually applied when `applyRules` walks a rule list
over `value`, in order.  This is a stateless projection of the engine's
control flow: nothing fires on an empty value (`checkRule` returns before
the transform); on a non-empty value every rule that is reached applies
its transform (when it has one) before its checks run, and the walk
continues past a rule exactly when `checkRuleErr` reports no error — the
error outcome does not depend on `sanitizedData`, so reachability is a
function of the field, the value and the rules alone. -/
def reachedTransforms (field : String) (value : Value) : List Rule → List (Value → Value)
  | [] => []
  | r :: rs =>
    if isEmptyVal value then []
    else
      (match r.transform with
       | some t => [t]
       | none => []) ++
      (match checkRuleErr field r (transformedVal r value) with
       | .ok none => reachedTransforms field value rs
       | _ => [])

/-- The transforms applied to field `f` when a schema is validated over
`data`, in schema order. -/
def appliedTransformsSchema (data : FieldMap) (f : String) :
    List (String × List Rule) → List (Value → Value)
  | [] => []
  | (g, rs) :: rest =>
    (if g = f then reachedTransforms g (getFieldVal data g) rs else []) ++
    appliedTransformsSchema data f rest

/-- The transforms applied to field `f` by one chained call over `data`. -/
def appliedTransformsCmd (data : FieldMap) (f : String) : Cmd → List (Value → Value)
  | .vField g rs => if g = f then reachedTransforms g (getFieldVal data g) rs else []
  | .vFields sch => appliedTransformsSchema data f sch
  | .customC _ => []

/-- The transforms applied to field `f` by a chain of calls over `data`. -/
def appliedTransformsCmds (data : FieldMap) (f : String) : List Cmd → List (Value → Value)
  | [] => []
  | c :: cs => appliedTransformsCmd data f c ++ appliedTransformsCmds data f cs

/-- The value a field holds after a sequence of applied transforms: each
transform runs on the field's original input value (`checkRule` reads
`this.data[field]`, never the sanitized copy), so the last one wins; with
no transform the original value stands. -/
def lastTransformValue (ts : List (Value → Value)) (v : Value) : Value :=
  match ts.getLast? with
  | some t => t v
  | none => v

/-! ## Proof-side weight lists and concrete fixtures -/

def throwingRule : Rule :=
  { type := .string, custom := some (fun _ => .error (.thrown "boom")) }

def requiredStringRule : Rule := { type := .string, required := true }

def sampleData : FieldMap := [("a", .vStr "x"), ("b", .vNum 3)]

def transformFailRule : Rule :=
  { type := .string, transform := some (fun _ => .vStr "X"),
    pattern := some (fun _ => false) }

def sampleCmds : List Cmd := [.vFields [("a", [transformFailRule])]]

/-- Weight list `w, w-1, …` of length `n` (proof-side presentation of the
descending loop weights). -/
def descWeights : Nat → Nat → List Nat
  | _, 0 => []
  | w, n + 1 => w :: descWeights (w - 1) n

/-- Weight list `1,3,1,3,…` of length `n` starting at parity `i`
(proof-side presentation of the ISBN-13 loop weights). -/
def altWeights : Nat → Nat → List Nat
  | _, 0 => []
  | i, n + 1 => (if i % 2 = 0 then 1 else 3) :: altWeights (i + 1) n


/-! ## Theorems -/

/-- Claim C10: for every `Validator` state (in particular every state
reachable by `validateField`, `validateFields` and `custom` calls), the
`ValidationResult` returned by `getResult` satisfies `isValid = true` if
and only if its `errors` list is empty. -/
theorem getResult_isValid_iff (st : VState) :
    (getResult st).isValid = true ↔ (getResult st).errors = [] := by
  simp [getResult, List.length_eq_zero]

/-- Claim C5 (amended): `throwIfInvalid` is a no-op on a state with an
empty error list, and otherwise raises a single aggregated
`ValidationError` carrying the full error list — with default transport
status 400 (the constructor default), not 422 as the claim states; see
`throwIfInvalid_400`. -/
theorem throwIfInvalid_spec (st : VState) (msg : String) :
    throwIfInvalid st msg =
      if st.errors.isEmpty then .ok ()
      else .error ⟨"ValidationError", msg, st.errors, 400, true⟩ := by
  cases h : st.errors <;> simp [throwIfInvalid, getResult, ValidationError.make, h]

/-- Claim C5 counterexample: the error raised by `throwIfInvalid` on a
concrete nonempty error list carries `statusCode = 400`, and 400 is not
422. -/
theorem throwIfInvalid_400 :
    throwIfInvalid ⟨[], [⟨"f", "m", .vNull, "REQUIRED"⟩], []⟩ "Erro de validação" =
      .error ⟨"ValidationError", "Erro de validação", [⟨"f", "m", .vNull, "REQUIRED"⟩], 400, true⟩ ∧
    (400 : Int) ≠ 422 :=
  ⟨rfl, by decide⟩

/-- Claim C8: for a field whose rule has `required = true` and whose value
is `undefined`, `null` or the empty string, `validateField` records exactly
one error item with code `REQUIRED`, and no transform, type checker,
custom predicate, enum check or pattern check runs for that rule: the
resulting state changes only in `errors`, leaving `sanitizedData`
untouched, and the equation holds for every rule — including one whose
custom predicate would throw. -/
theorem requiredEmpty (st : VState) (field : String) (rule : Rule)
    (hreq : rule.required = true)
    (hempty : isEmptyVal (getFieldVal st.data field) = true) :
    validateField st field [rule] =
      .ok { st with errors := st.errors ++
        [⟨field, rule.message.getD (field ++ " é obrigatório"), getFieldVal st.data field,
          "REQUIRED"⟩] } := by
  simp [validateField, applyRules, checkRule, hreq, hempty]

/-- Claim C7 (amended): the cpf, cnpj, cep, phone and isbn checkers
return a boolean exactly on string inputs; on every non-string value they
throw a `TypeError` (`value.replace` is not a function) instead of
returning false as the claim states. -/
theorem strippers_throw (v : Value) :
    (validateCPF v).isOk = v.isStr ∧ (validateCNPJ v).isOk = v.isStr ∧
    (validateCEP v).isOk = v.isStr ∧ (validatePhone v).isOk = v.isStr ∧
    (validateISBN v).isOk = v.isStr := by
  cases v <;> simp [validateCPF, validateCNPJ, validateCEP, validatePhone, validateISBN,
    Value.isStr, Except.isOk, Except.toBool]

/-- Claim C7 counterexample: `validateCPF` applied to the number 5 throws
a TypeError rather than returning false. -/
theorem validateCPF_throws :
    validateCPF (.vNum 5) = .error (.typeError "value.replace is not a function") ∧
    validateCPF (.vNum 5) ≠ .ok false :=
  ⟨rfl, fun h => nomatch h⟩

/-- Claim C3 (amended): when no step throws, `checkRule` produces at most
one error item per failing rule, but its message and code come from the
LAST failing step in the order type, custom, enum, pattern — each failing
step overwrites the pending message and code, and later steps are not
skipped — rather than from the first failing step as the claim states. -/
theorem checkRule_last_step (field : String) (value : Value) (rule : Rule) (sd : FieldMap)
    (hne : isEmptyVal value = false)
    (tb : Bool) (tm tc : String)
    (htype : typeCheckStep field rule (transformedVal rule value) = .ok (tb, tm, tc))
    (cOk : Bool)
    (hcustom : (match rule.custom with
                | none => Except.ok true
                | some f => f (transformedVal rule value)) = Except.ok cOk) :
    (checkRule field value rule sd).2 =
      .ok (let tv := transformedVal rule value
           let enumOk := match rule.enum with
             | some l => l.any (jsEquals tv)
             | none => true
           let patOk := match rule.pattern with
             | some p => p (jsToString tv)
             | none => true
           if tb && cOk && enumOk && patOk then none
           else some ⟨field, (lastFailMsgCode field rule tm tc cOk enumOk patOk).1, tv,
                      (lastFailMsgCode field rule tm tc cOk enumOk patOk).2⟩) := by
  have h1 : (rule.required && isEmptyVal value) = false := by simp [hne]
  have h2 : (!rule.required && isEmptyVal value) = false := by simp [hne]
  simp only [checkRule, h1, h2, Bool.false_eq_true, if_false, checkRuleErr, htype]
  cases hc : rule.custom with
  | none =>
    simp only [hc] at hcustom
    injection hcustom with hcok
    subst hcok
    cases he : rule.enum with
    | none =>
      cases hp : rule.pattern with
      | none => cases tb <;> simp [lastFailMsgCode]
      | some p =>
        cases hpat : p (jsToString (transformedVal rule value)) <;>
          cases tb <;> simp [lastFailMsgCode, hpat]
    | some l =>
      cases hen : l.any (jsEquals (transformedVal rule value)) with
      | true =>
        cases hp : rule.pattern with
        | none => cases tb <;> simp [lastFailMsgCode, hen, he]
        | some p =>
          cases hpat : p (jsToString (transformedVal rule value)) <;>
            cases tb <;> simp [lastFailMsgCode, hpat, hen, he]
      | false =>
        cases hp : rule.pattern with
        | none => cases tb <;> simp [lastFailMsgCode, hen, he]
        | some p =>
          cases hpat : p (jsToString (transformedVal rule value)) <;>
            cases tb <;> simp [lastFailMsgCode, hpat, hen, he]
  | some f =>
    simp only [hc] at hcustom
    cases cOk with
    | true =>
      cases he : rule.enum with
      | none =>
        cases hp : rule.pattern with
        | none => cases tb <;> simp [lastFailMsgCode, hcustom]
        | some p =>
          cases hpat : p (jsToString (transformedVal rule value)) <;>
            cases tb <;> simp [lastFailMsgCode, hpat, hcustom]
      | some l =>
        cases hen : l.any (jsEquals (transformedVal rule value)) with
        | true =>
          cases hp : rule.pattern with
          | none => cases tb <;> simp [lastFailMsgCode, hen, he, hcustom]
          | some p =>
            cases hpat : p (jsToString (transformedVal rule value)) <;>
              cases tb <;> simp [lastFailMsgCode, hpat, hen, he, hcustom]
        | false =>
          cases hp : rule.pattern with
          | none => cases tb <;> simp [lastFailMsgCode, hen, he, hcustom]
          | some p =>
            cases hpat : p (jsToString (transformedVal rule value)) <;>
              cases tb <;> simp [lastFailMsgCode, hpat, hen, he, hcustom]
    | false =>
      cases he : rule.enum with
      | none =>
        cases hp : rule.pattern with
        | none => cases tb <;> simp [lastFailMsgCode, hcustom]
        | some p =>
          cases hpat : p (jsToString (transformedVal rule value)) <;>
            cases tb <;> simp [lastFailMsgCode, hpat, hcustom]
      | some l =>
        cases hen : l.any (jsEquals (transformedVal rule value)) with
        | true =>
          cases hp : rule.pattern with
          | none => cases tb <;> simp [lastFailMsgCode, hen, he, hcustom]
          | some p =>
            cases hpat : p (jsToString (transformedVal rule value)) <;>
              cases tb <;> simp [lastFailMsgCode, hpat, hen, he, hcustom]
        | false =>
          cases hp : rule.pattern with
          | none => cases tb <;> simp [lastFailMsgCode, hen, he, hcustom]
          | some p =>
            cases hpat : p (jsToString (transformedVal rule value)) <;>
              cases tb <;> simp [lastFailMsgCode, hpat, hen, he, hcustom]

/-- Witness for `checkRule_last_step` at a concrete rule whose type check
and pattern both fail. -/
theorem checkRule_last_step_witness :
    isEmptyVal (Value.vStr "abc") = false ∧
    (checkRule "doc" (.vStr "abc")
        { type := .cpf, pattern := some (fun _ => false) } []).2 =
      .ok (some ⟨"doc", "doc não corresponde ao padrão esperado", .vStr "abc",
                 "PATTERN_MISMATCH"⟩) := by
  refine ⟨rfl, ?_⟩
  have h := checkRule_last_step "doc" (.vStr "abc")
    { type := .cpf, pattern := some (fun _ => false) } [] rfl
    false "doc deve ser um CPF válido" "INVALID_CPF" rfl true rfl
  simpa [lastFailMsgCode] using h

/-- Claim C3 counterexample: with a `cpf`-typed rule whose type check
fails on "abc" and whose pattern also fails, the reported code is
`PATTERN_MISMATCH`, not the type-specific `INVALID_CPF` the claim
predicts. -/
theorem checkRule_first_step_loses :
    validateCPFstr "abc" = false ∧
    (checkRule "doc" (.vStr "abc")
        { type := .cpf, pattern := some (fun _ => false) } []).2 =
      .ok (some ⟨"doc", "doc não corresponde ao padrão esperado", .vStr "abc",
                 "PATTERN_MISMATCH"⟩) ∧
    "PATTERN_MISMATCH" ≠ "INVALID_CPF" :=
  ⟨rfl, rfl, by decide⟩

/-- Claim C4 (amended): an exception raised by a custom predicate is not
caught: it propagates out of `checkRule` and aborts `validateFields`, so
the remaining schema fields are never validated and no
`CUSTOM_VALIDATION_FAILED` item is recorded — the error list of the state
at the moment of the throw is unchanged. -/
theorem customThrowPropagates
    (st : VState) (f : String) (rule : Rule) (rest : List (String × List Rule))
    (c : Value → Except JsError Bool) (e : JsError)
    (hne : isEmptyVal (getFieldVal st.data f) = false)
    (hcustom : rule.custom = some c)
    (tb : Bool) (tm tc : String)
    (htype : typeCheckStep f rule (transformedVal rule (getFieldVal st.data f)) = .ok (tb, tm, tc))
    (hthrow : c (transformedVal rule (getFieldVal st.data f)) = .error e) :
    checkRuleErr f rule (transformedVal rule (getFieldVal st.data f)) = .error e ∧
    ∃ st1 : VState,
      runCmd st (.vFields ((f, [rule]) :: rest)) = .error (e, st1) ∧
      st1.errors = st.errors ∧ st1.data = st.data := by
  have herr : checkRuleErr f rule (transformedVal rule (getFieldVal st.data f)) = .error e := by
    simp [checkRuleErr, htype, hcustom, hthrow]
  refine ⟨herr, { st with sanitizedData :=
      (checkRule f (getFieldVal st.data f) rule st.sanitizedData).1 }, ?_, rfl, rfl⟩
  have h1 : (rule.required && isEmptyVal (getFieldVal st.data f)) = false := by simp [hne]
  have h2 : (!rule.required && isEmptyVal (getFieldVal st.data f)) = false := by simp [hne]
  simp [runCmd, validateFieldsGo, validateField, applyRules, checkRule, h1, h2, herr]



/-- Claim C4 counterexample: a schema whose first field carries a
throwing custom predicate makes `validateFields` propagate the exception
instead of returning normally; the second field's required rule never runs
and the error list of the aborted state is empty. -/
theorem custom_exception_not_caught :
    runCmds (mkValidator [("a", .vStr "x"), ("b", .vStr "")])
      [.vFields [("a", [throwingRule]), ("b", [requiredStringRule])]] =
      .error (.thrown "boom",
        ⟨[("a", .vStr "x"), ("b", .vStr "")], [], [("a", .vStr "x"), ("b", .vStr "")]⟩) := rfl

/-- Witness for `customThrowPropagates` at a concrete throwing rule. -/
theorem customThrowPropagates_witness :
    checkRuleErr "a" throwingRule
        (transformedVal throwingRule (getFieldVal (mkValidator [("a", .vStr "x")]).data "a")) =
      .error (.thrown "boom") ∧
    ∃ st1 : VState,
      runCmd (mkValidator [("a", .vStr "x")])
          (.vFields [("a", [throwingRule]), ("b", [requiredStringRule])]) =
        .error (.thrown "boom", st1) ∧
      st1.errors = (mkValidator [("a", .vStr "x")]).errors ∧
      st1.data = (mkValidator [("a", .vStr "x")]).data :=
  customThrowPropagates (mkValidator [("a", .vStr "x")]) "a" throwingRule
    [("b", [requiredStringRule])] (fun _ => .error (.thrown "boom")) (.thrown "boom")
    rfl rfl true "a deve ser uma string válida" "VALIDATION_FAILED" rfl rfl

/-- Witness for `requiredEmpty` at a concrete required rule with an empty
value and a throwing custom predicate. -/
theorem requiredEmpty_witness :
    validateField (mkValidator [("b", .vStr "")]) "b"
        [{ type := .cpf, required := true, custom := some (fun _ => .error (.thrown "boom")) }] =
      .ok ⟨[("b", .vStr "")], [⟨"b", "b é obrigatório", .vStr "", "REQUIRED"⟩],
           [("b", .vStr "")]⟩ := by
  have h := requiredEmpty (mkValidator [("b", .vStr "")]) "b"
    { type := .cpf, required := true, custom := some (fun _ => .error (.thrown "boom")) } rfl rfl
  simpa using h

theorem lookupField_setField_self (m : FieldMap) (f : String) (v : Value) :
    lookupField (setField m f v) f = some v := by
  induction m with
  | nil => simp [setField, lookupField]
  | cons p tl ih =>
    obtain ⟨g, w⟩ := p
    by_cases h : g = f
    · simp [setField, h, lookupField]
    · simp [setField, h, lookupField, ih]

theorem lookupField_setField_other (m : FieldMap) (f g : String) (v : Value)
    (hne : g ≠ f) : lookupField (setField m f v) g = lookupField m g := by
  induction m with
  | nil => simp [setField, lookupField, Ne.symm hne]
  | cons p tl ih =>
    obtain ⟨k, w⟩ := p
    by_cases h : k = f
    · subst h
      simp [setField, lookupField, Ne.symm hne]
    · simp [setField, h, lookupField, ih]

theorem checkRule_sd_exact (field : String) (value : Value) (rule : Rule) (sd : FieldMap) :
    (checkRule field value rule sd).1 =
      if isEmptyVal value then sd
      else
        match rule.transform with
        | some t => setField sd field (t value)
        | none => sd := by
  unfold checkRule
  cases he : isEmptyVal value with
  | true => cases hr : rule.required <;> simp [he, hr]
  | false => cases ht : rule.transform <;> simp [he, ht, transformedVal]

theorem checkRule_snd (field : String) (value : Value) (rule : Rule) (sd : FieldMap) :
    (checkRule field value rule sd).2 =
      if isEmptyVal value then
        (if rule.required then
          .ok (some ⟨field, rule.message.getD (field ++ " é obrigatório"), value, "REQUIRED"⟩)
        else .ok none)
      else checkRuleErr field rule (transformedVal rule value) := by
  unfold checkRule
  cases he : isEmptyVal value with
  | true => cases hr : rule.required <;> simp [he, hr]
  | false => cases ht : rule.transform <;> simp [he, ht]

theorem reachedTransforms_of_empty (field : String) (value : Value) (rs : List Rule)
    (he : isEmptyVal value = true) : reachedTransforms field value rs = [] := by
  cases rs <;> simp [reachedTransforms, he]

theorem applyRules_sd (rs : List Rule) (st : VState) (field : String) (value : Value)
    (st' : VState) (h : applyRules st field value rs = .ok st') :
    st'.data = st.data ∧
    (∀ g, g ≠ field → lookupField st'.sanitizedData g = lookupField st.sanitizedData g) ∧
    lookupField st'.sanitizedData field =
      (match (reachedTransforms field value rs).getLast? with
       | some t => some (t value)
       | none => lookupField st.sanitizedData field) := by
  induction rs generalizing st with
  | nil =>
    simp [applyRules] at h
    subst h
    exact ⟨rfl, fun g _ => rfl, by simp [reachedTransforms]⟩
  | cons r rs ih =>
    unfold applyRules at h
    have hfst := checkRule_sd_exact field value r st.sanitizedData
    have hsnd := checkRule_snd field value r st.sanitizedData
    rcases hcr : checkRule field value r st.sanitizedData with ⟨sd1, res⟩
    rw [hcr] at h hfst hsnd
    simp only at hfst hsnd
    cases he : isEmptyVal value with
    | true =>
      simp only [he, if_true] at hfst hsnd
      have hreach : reachedTransforms field value (r :: rs) = [] :=
        reachedTransforms_of_empty field value _ he
      cases hr : r.required with
      | true =>
        simp only [hr, if_true] at hsnd
        subst hsnd
        simp only [Except.ok.injEq] at h
        subst h
        refine ⟨rfl, fun g _ => by simp [hfst], ?_⟩
        simp [hreach, hfst]
      | false =>
        simp only [hr, Bool.false_eq_true, if_false] at hsnd
        subst hsnd
        obtain ⟨hdata, hframe, hfield⟩ := ih { st with sanitizedData := sd1 } h
        have hrs : reachedTransforms field value rs = [] :=
          reachedTransforms_of_empty field value _ he
        refine ⟨hdata, fun g hg => by rw [hframe g hg]; simp [hfst], ?_⟩
        rw [hreach]
        rw [hrs] at hfield
        simp only [List.getLast?_nil] at hfield ⊢
        rw [hfield]
        simp [hfst]
    | false =>
      simp only [he, Bool.false_eq_true, if_false] at hfst hsnd
      cases hcre : checkRuleErr field r (transformedVal r value) with
      | error e =>
        rw [hcre] at hsnd
        subst hsnd
        simp at h
      | ok oi =>
        rw [hcre] at hsnd
        subst hsnd
        have hreach : reachedTransforms field value (r :: rs) =
            (match r.transform with
             | some t => [t]
             | none => []) ++
            (match (Except.ok oi : Except JsError (Option ErrorItem)) with
             | .ok none => reachedTransforms field value rs
             | _ => []) := by
          rw [reachedTransforms, if_neg (by simp [he]), hcre]
        cases oi with
        | some item =>
          simp only [Except.ok.injEq] at h
          subst h
          refine ⟨rfl, ?_, ?_⟩
          · intro g hg
            cases ht : r.transform with
            | none => simp only [ht] at hfst; simp [hfst]
            | some t =>
              simp only [ht] at hfst
              simp only [hfst]
              exact lookupField_setField_other _ _ _ _ hg
          · rw [hreach]
            cases ht : r.transform with
            | none =>
              simp only [ht] at hfst
              simp [hfst]
            | some t =>
              simp only [ht] at hfst
              simp only [hfst, List.nil_append]
              simp [lookupField_setField_self]
        | none =>
          obtain ⟨hdata, hframe, hfield⟩ := ih { st with sanitizedData := sd1 } h
          refine ⟨hdata, ?_, ?_⟩
          · intro g hg
            rw [hframe g hg]
            cases ht : r.transform with
            | none => simp only [ht] at hfst; simp [hfst]
            | some t =>
              simp only [ht] at hfst
              simp only [hfst]
              exact lookupField_setField_other _ _ _ _ hg
          · rw [hreach]
            simp only []
            cases hgl : (reachedTransforms field value rs).getLast? with
            | some t' =>
              have hne : reachedTransforms field value rs ≠ [] := by
                intro h0
                rw [h0] at hgl
                simp at hgl
              rw [List.getLast?_append_of_ne_nil _ hne, hgl]
              rw [hgl] at hfield
              exact hfield
            | none =>
              have h0 : reachedTransforms field value rs = [] :=
                List.getLast?_eq_none_iff.mp hgl
              rw [h0, List.append_nil]
              rw [hgl] at hfield
              simp only at hfield
              rw [hfield]
              cases ht : r.transform with
              | none => simp only [ht] at hfst; simp [hfst]
              | some t =>
                simp only [ht] at hfst
                simp only [hfst]
                simp [lookupField_setField_self]

theorem validateFieldsGo_sd (sch : List (String × List Rule)) (st st' : VState)
    (h : validateFieldsGo st sch = .ok st') :
    st'.data = st.data ∧
    ∀ f, lookupField st'.sanitizedData f =
      (match (appliedTransformsSchema st.data f sch).getLast? with
       | some t => some (t (getFieldVal st.data f))
       | none => lookupField st.sanitizedData f) := by
  induction sch generalizing st with
  | nil =>
    simp [validateFieldsGo] at h
    subst h
    exact ⟨rfl, fun f => by simp [appliedTransformsSchema]⟩
  | cons entry rest ih =>
    obtain ⟨g, rs⟩ := entry
    unfold validateFieldsGo at h
    rcases hvf : validateField st g rs with p | st1
    · rw [hvf] at h; simp at h
    · rw [hvf] at h
      obtain ⟨hdata1, hframe1, hfield1⟩ := applyRules_sd rs st g (getFieldVal st.data g) st1 hvf
      obtain ⟨hdata2, hlook2⟩ := ih st1 h
      refine ⟨hdata2.trans hdata1, fun f => ?_⟩
      have hl2 := hlook2 f
      rw [hdata1] at hl2
      simp only [appliedTransformsSchema]
      cases hB : (appliedTransformsSchema st.data f rest).getLast? with
      | some t =>
        have hBne : appliedTransformsSchema st.data f rest ≠ [] := by
          intro h0
          rw [h0] at hB
          simp at hB
        rw [List.getLast?_append_of_ne_nil _ hBne, hB]
        rw [hB] at hl2
        exact hl2
      | none =>
        have hB0 : appliedTransformsSchema st.data f rest = [] :=
          List.getLast?_eq_none_iff.mp hB
        rw [hB0, List.append_nil]
        rw [hB] at hl2
        simp only at hl2
        rw [hl2]
        by_cases hgf : g = f
        · subst hgf
          simp only [if_pos rfl]
          exact hfield1
        · simp only [if_neg hgf, List.getLast?_nil]
          exact hframe1 f (fun hfg => hgf hfg.symm)

theorem runCmd_sd (st st' : VState) (c : Cmd) (h : runCmd st c = .ok st') :
    st'.data = st.data ∧
    ∀ f, lookupField st'.sanitizedData f =
      (match (appliedTransformsCmd st.data f c).getLast? with
       | some t => some (t (getFieldVal st.data f))
       | none => lookupField st.sanitizedData f) := by
  cases c with
  | vField g rs =>
    obtain ⟨hdata, hframe, hfield⟩ := applyRules_sd rs st g (getFieldVal st.data g) st' h
    refine ⟨hdata, fun f => ?_⟩
    simp only [appliedTransformsCmd]
    by_cases hgf : g = f
    · subst hgf
      simp only [if_pos rfl]
      exact hfield
    · simp only [if_neg hgf, List.getLast?_nil]
      exact hframe f (fun hfg => hgf hfg.symm)
  | vFields sch =>
    obtain ⟨hdata, hlook⟩ := validateFieldsGo_sd sch st st' h
    exact ⟨hdata, fun f => by simpa [appliedTransformsCmd] using hlook f⟩
  | customC g =>
    simp only [runCmd] at h
    cases hg : g st.data with
    | some e =>
      rw [hg] at h
      simp only [Except.ok.injEq] at h
      subst h
      exact ⟨rfl, fun f => by simp [appliedTransformsCmd]⟩
    | none =>
      rw [hg] at h
      simp only [Except.ok.injEq] at h
      subst h
      exact ⟨rfl, fun f => by simp [appliedTransformsCmd]⟩

theorem runCmds_sd (cs : List Cmd) (st st' : VState) (h : runCmds st cs = .ok st') :
    st'.data = st.data ∧
    ∀ f, lookupField st'.sanitizedData f =
      (match (appliedTransformsCmds st.data f cs).getLast? with
       | some t => some (t (getFieldVal st.data f))
       | none => lookupField st.sanitizedData f) := by
  induction cs generalizing st with
  | nil =>
    simp [runCmds] at h
    subst h
    exact ⟨rfl, fun f => by simp [appliedTransformsCmds]⟩
  | cons c cs ih =>
    unfold runCmds at h
    rcases hc : runCmd st c with p | st1
    · rw [hc] at h; simp at h
    · rw [hc] at h
      obtain ⟨hdata1, hlook1⟩ := runCmd_sd st st1 c hc
      obtain ⟨hdata2, hlook2⟩ := ih st1 h
      refine ⟨hdata2.trans hdata1, fun f => ?_⟩
      have hl2 := hlook2 f
      rw [hdata1] at hl2
      simp only [appliedTransformsCmds]
      cases hB : (appliedTransformsCmds st.data f cs).getLast? with
      | some t =>
        have hBne : appliedTransformsCmds st.data f cs ≠ [] := by
          intro h0
          rw [h0] at hB
          simp at hB
        rw [List.getLast?_append_of_ne_nil _ hBne, hB]
        rw [hB] at hl2
        exact hl2
      | none =>
        have hB0 : appliedTransformsCmds st.data f cs = [] :=
          List.getLast?_eq_none_iff.mp hB
        rw [hB0, List.append_nil]
        rw [hB] at hl2
        simp only at hl2
        rw [hl2]
        exact hlook1 f

/-- Claim C9: after any successfully returning sequence of
`validateField` / `validateFields` / `custom` calls, `sanitizedData`
contains every field present in the input, and its value is exactly
`lastTransformValue` of the transforms actually applied to that field: a
field one of whose applied rules had a transform (with a non-empty value)
holds that transform's output — the last such transform, applied to the
field's original input value — and a field with no applied transform
holds its original input value unchanged.  No validity hypothesis appears,
so this is independent of whether validation of that field or any other
field succeeded or failed. -/
theorem sanitizedData_complete (data : FieldMap) (cs : List Cmd) (st' : VState)
    (hrun : runCmds (mkValidator data) cs = .ok st')
    (f : String) (v : Value) (hv : lookupField data f = some v) :
    lookupField st'.sanitizedData f =
      some (lastTransformValue (appliedTransformsCmds data f cs) v) ∧
    (appliedTransformsCmds data f cs = [] →
      lookupField st'.sanitizedData f = some v) := by
  obtain ⟨hdata, hlook⟩ := runCmds_sd cs (mkValidator data) st' hrun
  have hl := hlook f
  have hgv : getFieldVal (mkValidator data).data f = v := by
    simp [mkValidator, getFieldVal, hv]
  have hsd : (mkValidator data).sanitizedData = data := rfl
  have hdat : (mkValidator data).data = data := rfl
  rw [hgv, hsd, hdat, hv] at hl
  constructor
  · rw [hl]
    unfold lastTransformValue
    cases hgl : (appliedTransformsCmds data f cs).getLast? <;> simp [hgl]
  · intro hemp
    rw [hl, hemp]
    simp

/-- Witness for `sanitizedData_complete`: a rule with a transform whose
pattern check fails still stores the transform's output — the final
sanitized value of field "a" is exactly the applied transform's output
`vStr "X"`, not the original `vStr "x"`, even though the rule failed. -/
theorem sanitizedData_complete_witness :
    runCmds (mkValidator sampleData) sampleCmds =
      .ok ⟨sampleData,
           [⟨"a", "a não corresponde ao padrão esperado", .vStr "X", "PATTERN_MISMATCH"⟩],
           [("a", .vStr "X"), ("b", .vNum 3)]⟩ ∧
    (lookupField
        (VState.sanitizedData ⟨sampleData,
           [⟨"a", "a não corresponde ao padrão esperado", .vStr "X", "PATTERN_MISMATCH"⟩],
           [("a", .vStr "X"), ("b", .vNum 3)]⟩) "a" =
      some (lastTransformValue (appliedTransformsCmds sampleData "a" sampleCmds) (.vStr "x")) ∧
     (appliedTransformsCmds sampleData "a" sampleCmds = [] →
      lookupField
        (VState.sanitizedData ⟨sampleData,
           [⟨"a", "a não corresponde ao padrão esperado", .vStr "X", "PATTERN_MISMATCH"⟩],
           [("a", .vStr "X"), ("b", .vNum 3)]⟩) "a" = some (.vStr "x"))) ∧
    lastTransformValue (appliedTransformsCmds sampleData "a" sampleCmds) (.vStr "x") =
      .vStr "X" :=
  ⟨rfl, sanitizedData_complete sampleData sampleCmds _ rfl "a" (.vStr "x") rfl, rfl⟩


theorem head?_dropWhile_not (p : Char → Bool) (l : List Char) (c : Char)
    (h : (l.dropWhile p).head? = some c) : p c = false := by
  induction l with
  | nil => simp [List.dropWhile] at h
  | cons a tl ih =>
    by_cases hp : p a = true
    · rw [List.dropWhile_cons] at h
      simp [hp] at h
      exact ih h
    · rw [List.dropWhile_cons] at h
      simp [hp] at h
      rw [← h]
      simpa using hp

theorem collapseAux_idem (cs : List Char) : ∀ f, collapseAux f (collapseAux f cs) = collapseAux f cs := by
  induction cs with
  | nil => intro f; rfl
  | cons c rest ih =>
    intro f
    by_cases h : jsWS c = true
    · cases f with
      | true =>
        simp only [collapseAux, h, if_true, List.nil_append]
        exact ih true
      | false =>
        have hsp : jsWS ' ' = true := by decide
        simp only [collapseAux, h, hsp, if_true, Bool.false_eq_true, if_false,
          List.append_eq, List.singleton_append, List.cons_append, List.nil_append]
        rw [ih true]
    · have h' : jsWS c = false := by simpa using h
      simp only [collapseAux, h', Bool.false_eq_true, if_false]
      rw [ih false]

theorem mem_collapseAux (cs : List Char) : ∀ f c, c ∈ collapseAux f cs → c = ' ' ∨ c ∈ cs := by
  induction cs with
  | nil => intro f c h; simp [collapseAux] at h
  | cons a rest ih =>
    intro f c h
    by_cases ha : jsWS a = true
    · cases f with
      | true =>
        simp only [collapseAux, ha, if_true, List.nil_append] at h
        rcases ih true c h with h1 | h2
        · exact Or.inl h1
        · exact Or.inr (List.mem_cons_of_mem _ h2)
      | false =>
        simp [collapseAux, ha] at h
        rcases h with h1 | h2
        · exact Or.inl h1
        · rcases ih true c h2 with h3 | h4
          · exact Or.inl h3
          · exact Or.inr (List.mem_cons_of_mem _ h4)
    · have ha' : jsWS a = false := by simpa using ha
      simp only [collapseAux, ha', Bool.false_eq_true, if_false, List.mem_cons] at h
      rcases h with h1 | h2
      · exact Or.inr (h1 ▸ List.mem_cons_self _ _)
      · rcases ih false c h2 with h3 | h4
        · exact Or.inl h3
        · exact Or.inr (List.mem_cons_of_mem _ h4)

theorem collapseAux_eq_nil (cs : List Char) : ∀ f, collapseAux f cs = [] → ∀ c ∈ cs, jsWS c = true := by
  induction cs with
  | nil => intro f _ c hc; simp at hc
  | cons a rest ih =>
    intro f h c hc
    by_cases ha : jsWS a = true
    · cases f with
      | true =>
        simp only [collapseAux, ha, if_true, List.nil_append] at h
        rcases List.mem_cons.mp hc with h1 | h2
        · exact h1 ▸ ha
        · exact ih true h c h2
      | false =>
        simp [collapseAux, ha] at h
    · have ha' : jsWS a = false := by simpa using ha
      simp [collapseAux, ha'] at h

theorem rtGo_none_eq (cs : List Char) (h : '<' ∉ cs) : rtGo none cs = cs := by
  induction cs with
  | nil => rfl
  | cons a rest ih =>
    have ha : ¬a = '<' := fun heq => h (heq ▸ List.mem_cons_self _ _)
    have hr : '<' ∉ rest := fun hm => h (List.mem_cons_of_mem _ hm)
    simp [rtGo, ha, ih hr]

theorem mem_jsTrim (cs : List Char) (c : Char) (h : c ∈ jsTrim cs) : c ∈ cs := by
  unfold jsTrim at h
  rw [List.mem_reverse] at h
  have h1 := (List.dropWhile_sublist (l := (cs.dropWhile jsWS).reverse) jsWS).mem h
  rw [List.mem_reverse] at h1
  exact (List.dropWhile_sublist (l := cs) jsWS).mem h1

theorem jsTrim_head (cs : List Char) (c : Char) (h : (jsTrim cs).head? = some c) :
    jsWS c = false := by
  unfold jsTrim at h
  rw [List.head?_reverse] at h
  obtain ⟨pre, hpre⟩ := List.dropWhile_suffix (l := (cs.dropWhile jsWS).reverse) jsWS
  have hBne : (cs.dropWhile jsWS).reverse.dropWhile jsWS ≠ [] := by
    intro hB0
    rw [hB0] at h
    simp at h
  have h2 : ((cs.dropWhile jsWS).reverse).getLast? = some c := by
    rw [← hpre, List.getLast?_append_of_ne_nil _ hBne]
    exact h
  rw [List.getLast?_reverse] at h2
  exact head?_dropWhile_not jsWS cs c h2

theorem jsTrim_getLast (cs : List Char) (c : Char) (h : (jsTrim cs).getLast? = some c) :
    jsWS c = false := by
  unfold jsTrim at h
  rw [List.getLast?_reverse] at h
  exact head?_dropWhile_not jsWS _ c h

theorem dropWhile_eq_self_of_head (p : Char → Bool) (l : List Char)
    (h : ∀ c, l.head? = some c → p c = false) : l.dropWhile p = l := by
  cases l with
  | nil => rfl
  | cons a tl => simp [List.dropWhile_cons, h a rfl]

theorem jsTrim_eq_self (cs : List Char)
    (h1 : ∀ c, cs.head? = some c → jsWS c = false)
    (h2 : ∀ c, cs.getLast? = some c → jsWS c = false) : jsTrim cs = cs := by
  unfold jsTrim
  rw [dropWhile_eq_self_of_head jsWS cs h1]
  rw [dropWhile_eq_self_of_head jsWS cs.reverse
    (fun c hc => h2 c (by rwa [List.head?_reverse] at hc))]
  exact List.reverse_reverse cs

theorem collapseAux_getLast (cs : List Char) : ∀ f c,
    (∀ d, cs.getLast? = some d → jsWS d = false) →
    (collapseAux f cs).getLast? = some c → jsWS c = false := by
  induction cs with
  | nil => intro f c _ h; simp [collapseAux] at h
  | cons a rest ih =>
    intro f c hlast h
    by_cases ha : jsWS a = true
    · cases hr : rest with
      | nil =>
        subst hr
        have hfa := hlast a rfl
        rw [ha] at hfa
        cases hfa
      | cons b tl =>
        subst hr
        have hlast' : ∀ d, (b :: tl).getLast? = some d → jsWS d = false := by
          intro d hd
          exact hlast d (by rw [List.getLast?_cons_cons]; exact hd)
        cases hcol : collapseAux true (b :: tl) with
        | nil =>
          have hall := collapseAux_eq_nil (b :: tl) true hcol
          have hne : (b :: tl) ≠ [] := by simp
          have hd := List.getLast?_eq_getLast_of_ne_nil hne
          have hmem := List.getLast_mem hne
          have := hlast' _ hd
          rw [hall _ hmem] at this
          cases this
        | cons e es =>
          have hpad : collapseAux f (a :: b :: tl) =
              (if f then [] else [' ']) ++ collapseAux true (b :: tl) := by
            simp [collapseAux, ha]
          rw [hpad, hcol, List.getLast?_append_of_ne_nil _ (by simp), ← hcol] at h
          exact ih true c hlast' h
    · have ha' : jsWS a = false := by simpa using ha
      have hstep : collapseAux f (a :: rest) = a :: collapseAux false rest := by
        simp [collapseAux, ha']
      rw [hstep] at h
      cases hcol : collapseAux false rest with
      | nil =>
        rw [hcol] at h
        have hc : a = c := by
          simpa using h
        rw [← hc]
        exact ha'
      | cons e es =>
        rw [hcol, List.getLast?_cons_cons, ← hcol] at h
        have hrest : rest ≠ [] := by
          intro h0
          rw [h0] at hcol
          simp [collapseAux] at hcol
        have hlast' : ∀ d, rest.getLast? = some d → jsWS d = false := by
          intro d hd
          cases hr : rest with
          | nil => exact absurd hr hrest
          | cons b tl =>
            subst hr
            exact hlast d (by rw [List.getLast?_cons_cons]; exact hd)
        exact ih false c hlast' h

theorem sanitizeList_noSpecial (cs : List Char) :
    ∀ c ∈ sanitizeList cs, isSpecialChar c = false := by
  intro c hc
  unfold sanitizeList removeSpecials at hc
  have := List.mem_filter.mp hc
  simpa using this.2

theorem sanitize_of_noSpecial (w : List Char)
    (h : ∀ c ∈ w, isSpecialChar c = false) :
    sanitizeList w = collapseWS (jsTrim w) := by
  unfold sanitizeList
  have hlt : '<' ∉ jsTrim w := by
    intro hm
    have := h '<' (mem_jsTrim _ _ hm)
    simp [isSpecialChar, specialCodes] at this
  rw [show removeTags (jsTrim w) = jsTrim w from rtGo_none_eq _ hlt]
  unfold removeSpecials
  apply List.filter_eq_self.mpr
  intro c hc
  rcases mem_collapseAux _ _ _ hc with hsp | hmem
  · subst hsp; decide
  · have := h c (mem_jsTrim _ _ hmem)
    simp [this]

theorem sanitizeList_fixed (y : List Char)
    (hy : ∀ c ∈ y, isSpecialChar c = false) :
    sanitizeList (collapseWS (jsTrim y)) = collapseWS (jsTrim y) := by
  have hzs : ∀ c ∈ collapseWS (jsTrim y), isSpecialChar c = false := by
    intro c hc
    rcases mem_collapseAux _ _ _ hc with hsp | hmem
    · subst hsp; decide
    · exact hy c (mem_jsTrim _ _ hmem)
  rw [sanitize_of_noSpecial _ hzs]
  have hhead : ∀ c, (collapseWS (jsTrim y)).head? = some c → jsWS c = false := by
    intro c hc
    cases ht : jsTrim y with
    | nil =>
      rw [ht] at hc
      simp [collapseWS, collapseAux] at hc
    | cons a tl =>
      have ha : jsWS a = false := jsTrim_head y a (by rw [ht]; rfl)
      rw [ht] at hc
      simp only [collapseWS, collapseAux, ha, Bool.false_eq_true, if_false,
        List.head?_cons, Option.some.injEq] at hc
      rw [← hc]
      exact ha
  have hlast : ∀ c, (collapseWS (jsTrim y)).getLast? = some c → jsWS c = false := by
    intro c hc
    exact collapseAux_getLast (jsTrim y) false c (fun d hd => jsTrim_getLast y d hd) hc
  rw [jsTrim_eq_self _ hhead hlast]
  exact collapseAux_idem (jsTrim y) false

/-- Claim C6 (amended): `sanitizeString` is not idempotent in general
(see `sanitize_not_idempotent`), but it stabilizes after two passes:
sanitizing three times equals sanitizing twice; and on the claim's example
the first pass gives "Hello world", which a further pass leaves
unchanged. -/
theorem sanitize_stabilizes :
    (∀ s : String,
      sanitizeString (sanitizeString (sanitizeString s)) = sanitizeString (sanitizeString s)) ∧
    sanitizeString "  <b>Hello</b>   world  " = "Hello world" ∧
    sanitizeString "Hello world" = "Hello world" := by
  refine ⟨fun s => ?_, by decide, by decide⟩
  have hy := sanitizeList_noSpecial s.data
  have hl : sanitizeList (sanitizeList (sanitizeList s.data)) =
      sanitizeList (sanitizeList s.data) := by
    rw [sanitize_of_noSpecial _ hy]
    exact sanitizeList_fixed _ hy
  exact congrArg String.mk hl

/-- Claim C6 counterexample: sanitizing "a ." once gives "a " — removing
the dot leaves a trailing space — and sanitizing a second time gives "a",
so sanitizing twice differs from sanitizing once. -/
theorem sanitize_not_idempotent :
    sanitizeString "a ." = "a " ∧
    sanitizeString (sanitizeString "a .") = "a" ∧
    ("a " : String) ≠ "a" := by
  refine ⟨by decide, by decide, by decide⟩




theorem digitVal_inj (c d : Char) (hc : c.isDigit = true) (hd : d.isDigit = true)
    (h : digitVal c = digitVal d) : c = d := by
  have hc2 : 48 ≤ c.toNat ∧ c.toNat ≤ 57 := by
    simp [Char.isDigit] at hc
    exact hc
  have hd2 : 48 ≤ d.toNat ∧ d.toNat ≤ 57 := by
    simp [Char.isDigit] at hd
    exact hd
  have ht : c.toNat = d.toNat := by
    unfold digitVal at h
    omega
  have h2 := congrArg Char.ofNat ht
  rwa [Char.ofNat_toNat, Char.ofNat_toNat] at h2

theorem getD_map_digitVal (l : List Char) : ∀ i : Nat, i < l.length →
    (l.map digitVal).getD i 0 = digitVal (l.getD i ' ') := by
  induction l with
  | nil => intro i h; simp at h
  | cons a tl ih =>
    intro i h
    cases i with
    | zero => simp
    | succ j =>
      simp only [List.map_cons, List.getD_cons_succ]
      exact ih j (by simpa using h)

theorem cpfSum_eq (cs : List Char) : ∀ w : Nat,
    cpfSum cs w =
      (List.zipWith (· * ·) (cs.map digitVal) (descWeights w cs.length)).sum := by
  induction cs with
  | nil => intro w; simp [cpfSum]
  | cons c rest ih =>
    intro w
    simp only [cpfSum, List.length_cons, descWeights, List.map_cons,
      List.zipWith_cons_cons, List.sum_cons]
    rw [ih (w - 1)]

/-- Claim C1: the CPF checker accepts a string exactly when, after
stripping non-digit characters, 11 digits remain, they are not one digit
repeated 11 times, and both check digits match: the first computed from
the first 9 digits with weights 10 down to 2 and the mod-11 rule
(`cpfCheckDigit`) must equal digit 10, the second computed from the first
10 digits with weights 11 down to 2 must equal digit 11.  In particular
"529.982.247-25" is accepted and "111.111.111-11" is rejected. -/
theorem validateCPF_iff_claim :
    (∀ s : String, validateCPFstr s = true ↔ cpfClaimProp s) ∧
    validateCPFstr "529.982.247-25" = true ∧
    validateCPFstr "111.111.111-11" = false := by
  refine ⟨fun s => ?_, by decide, by decide⟩
  have hdig : ∀ c ∈ s.data.filter Char.isDigit, c.isDigit = true :=
    fun c hc => (List.mem_filter.mp hc).2
  unfold validateCPFstr cpfClaimProp stripNonDigits
  revert hdig
  generalize (s.data.filter Char.isDigit) = cs
  intro hdig
  dsimp only
  by_cases hL : cs.length = 11
  · rw [if_neg (fun h => h hL)]
    by_cases hA : allSameRun cs = true
    · rw [if_pos hA]
      have hrep : cs.map digitVal = List.replicate 11 ((cs.map digitVal).headD 0) := by
        cases cs with
        | nil => simp at hL
        | cons c rest =>
          simp only [allSameRun, Bool.and_eq_true, List.all_eq_true] at hA
          obtain ⟨⟨hcd, -⟩, hall⟩ := hA
          simp only [List.map_cons, List.headD_cons]
          rw [List.eq_replicate_iff]
          constructor
          · simp only [List.length_cons, List.length_map]
            simpa using hL
          · intro b hb
            rcases List.mem_cons.mp hb with hb0 | hb1
            · exact hb0
            · obtain ⟨r, hr, hbr⟩ := List.mem_map.mp hb1
              have hrc : r = c := by simpa using hall r hr
              rw [← hbr, hrc]
      constructor
      · intro h; cases h
      · rintro ⟨-, hne, -⟩
        exact absurd hrep hne
    · rw [if_neg hA]
      have hlen : (cs.map digitVal).length = 11 := by
        rw [List.length_map]; exact hL
      have hnerep : cs.map digitVal ≠ List.replicate 11 ((cs.map digitVal).headD 0) := by
        intro hrep
        apply hA
        cases cs with
        | nil => simp at hL
        | cons c rest =>
          simp only [List.map_cons, List.headD_cons] at hrep
          have hrest : rest.map digitVal = List.replicate 10 (digitVal c) := by
            rw [show (11 : Nat) = 10 + 1 from rfl, List.replicate_succ] at hrep
            injection hrep
          simp only [allSameRun, Bool.and_eq_true, List.all_eq_true]
          refine ⟨⟨hdig c (List.mem_cons_self _ _), ?_⟩, ?_⟩
          · have h10 : rest.length = 10 := by simpa using hL
            cases rest with
            | nil => simp at h10
            | cons x xs => simp
          · intro r hr
            have hmem : digitVal r ∈ List.replicate 10 (digitVal c) := by
              rw [← hrest]
              exact List.mem_map_of_mem _ hr
            have heq := List.eq_of_mem_replicate hmem
            have := digitVal_inj r c (hdig r (List.mem_cons_of_mem _ hr))
              (hdig c (List.mem_cons_self _ _)) heq
            simpa using this
      have ht9 : (cs.take 9).length = 9 := by simp [List.length_take, hL]
      have ht10 : (cs.take 10).length = 10 := by simp [List.length_take, hL]
      have e1 : cpfSum (cs.take 9) 10 =
          (List.zipWith (· * ·) ((cs.map digitVal).take 9)
            [10, 9, 8, 7, 6, 5, 4, 3, 2]).sum := by
        rw [cpfSum_eq, List.map_take, ht9]
        rfl
      have e2 : cpfSum (cs.take 10) 11 =
          (List.zipWith (· * ·) ((cs.map digitVal).take 10)
            [11, 10, 9, 8, 7, 6, 5, 4, 3, 2]).sum := by
        rw [cpfSum_eq, List.map_take, ht10]
        rfl
      have g9 : (cs.map digitVal).getD 9 0 = digitVal (cs.getD 9 ' ') :=
        getD_map_digitVal cs 9 (by omega)
      have g10 : (cs.map digitVal).getD 10 0 = digitVal (cs.getD 10 ' ') :=
        getD_map_digitVal cs 10 (by omega)
      rw [e1, e2] at *
      simp only [cpfCheckDigit, g9, g10, hlen, hnerep, ne_eq, not_false_eq_true,
        true_and]
      set d1 := if (List.zipWith (· * ·) ((cs.map digitVal).take 9)
            [10, 9, 8, 7, 6, 5, 4, 3, 2]).sum % 11 < 2 then 0
          else 11 - (List.zipWith (· * ·) ((cs.map digitVal).take 9)
            [10, 9, 8, 7, 6, 5, 4, 3, 2]).sum % 11 with hd1def
      set d2 := if (List.zipWith (· * ·) ((cs.map digitVal).take 10)
            [11, 10, 9, 8, 7, 6, 5, 4, 3, 2]).sum % 11 < 2 then 0
          else 11 - (List.zipWith (· * ·) ((cs.map digitVal).take 10)
            [11, 10, 9, 8, 7, 6, 5, 4, 3, 2]).sum % 11 with hd2def
      by_cases hq : digitVal (cs.getD 9 ' ') = d1
      · rw [if_neg (fun h => h hq)]
        constructor
        · intro h
          have hb : digitVal (cs.getD 10 ' ') = d2 := by simpa using h
          exact ⟨hq.symm, hb.symm⟩
        · rintro ⟨-, h2⟩
          simp [h2]
      · rw [if_pos hq]
        constructor
        · intro h; cases h
        · rintro ⟨h1, -⟩
          exact absurd h1.symm hq
  · rw [if_pos hL]
    constructor
    · intro h; cases h
    · rintro ⟨hlen, -⟩
      rw [List.length_map] at hlen
      exact absurd hlen hL


theorem isbn9Sum_eq (cs : List Char) : ∀ w : Nat,
    isbn9Sum cs w = (parseDigits cs).map
      (fun vs => (List.zipWith (· * ·) vs (descWeights w cs.length)).sum) := by
  induction cs with
  | nil => intro w; simp [isbn9Sum, parseDigits]
  | cons c rest ih =>
    intro w
    simp only [isbn9Sum, parseDigits, List.length_cons, descWeights]
    cases hp : jsParseIntChar c with
    | none => simp
    | some d =>
      rw [ih (w - 1)]
      cases hm : parseDigits rest with
      | none => simp
      | some vs => simp [List.zipWith_cons_cons]

theorem isbn13Sum_eq (cs : List Char) : ∀ i : Nat,
    isbn13Sum cs i = (parseDigits cs).map
      (fun vs => (List.zipWith (· * ·) vs (altWeights i cs.length)).sum) := by
  induction cs with
  | nil => intro i; simp [isbn13Sum, parseDigits]
  | cons c rest ih =>
    intro i
    simp only [isbn13Sum, parseDigits, List.length_cons, altWeights]
    cases hp : jsParseIntChar c with
    | none => simp
    | some d =>
      rw [ih (i + 1)]
      cases hm : parseDigits rest with
      | none => simp
      | some vs => simp [List.zipWith_cons_cons]

theorem parseDigits_length (cs : List Char) : ∀ vs,
    parseDigits cs = some vs → vs.length = cs.length := by
  induction cs with
  | nil =>
    intro vs h
    simp [parseDigits] at h
    simp [← h]
  | cons c rest ih =>
    intro vs h
    simp only [parseDigits] at h
    cases hp : jsParseIntChar c with
    | none => rw [hp] at h; cases h
    | some d =>
      rw [hp] at h
      cases hm : parseDigits rest with
      | none => rw [hm] at h; cases h
      | some ws =>
        rw [hm] at h
        simp at h
        rw [← h]
        simp [ih ws hm]

/-- Claim C2: the ISBN checker strips hyphens and whitespace and then
accepts exactly: length-10 strings whose weighted sum with weights 10 down
to 1 (last character may be X valued 10) is divisible by 11, and length-13
strings whose sum with weights alternating 1,3 from position 0 is
divisible by 10; any other length is rejected.  In particular
"9780306406157" is accepted and "9780306406158" (last digit incremented
mod 10) is rejected. -/
theorem validateISBN_iff_claim :
    (∀ s : String, validateISBNstr s = true ↔ isbnClaimProp s) ∧
    validateISBNstr "9780306406157" = true ∧
    validateISBNstr "9780306406158" = false := by
  refine ⟨fun s => ?_, by decide, by decide⟩
  unfold validateISBNstr isbnClaimProp stripIsbn
  generalize (s.data.filter fun c => !(c == '-' || jsWS c)) = t
  dsimp only
  by_cases h10 : t.length = 10
  · rw [if_pos h10]
    have h13 : ¬ t.length = 13 := by omega
    unfold validateISBN10 isbn10Vals
    have ht9 : (t.take 9).length = 9 := by simp [List.length_take, h10]
    rw [isbn9Sum_eq, ht9]
    have hw : descWeights 10 9 = [10, 9, 8, 7, 6, 5, 4, 3, 2] := rfl
    rw [hw]
    cases hm : parseDigits (t.take 9) with
    | none => simp [h10, h13]
    | some ds =>
      cases hl : isbn10LastVal (t.getD 9 ' ') with
      | none => simp [hl, h10, h13]
      | some lv =>
        have hds9 : ds.length = 9 := by
          rw [parseDigits_length _ _ hm, ht9]
        have hsplit : List.zipWith (· * ·) (ds ++ [lv]) [10, 9, 8, 7, 6, 5, 4, 3, 2, 1] =
            List.zipWith (· * ·) ds [10, 9, 8, 7, 6, 5, 4, 3, 2] ++ [lv * 1] := by
          have hw2 : [10, 9, 8, 7, 6, 5, 4, 3, 2, 1] =
              [10, 9, 8, 7, 6, 5, 4, 3, 2] ++ ([1] : List Nat) := rfl
          rw [hw2, List.zipWith_append _ _ _ _ _ (by rw [hds9]; rfl)]
          rfl
        simp [hl, h10, h13, hsplit]
  · rw [if_neg h10]
    by_cases h13 : t.length = 13
    · rw [if_pos h13]
      unfold validateISBN13
      rw [isbn13Sum_eq, h13]
      have hw : altWeights 0 13 = [1, 3, 1, 3, 1, 3, 1, 3, 1, 3, 1, 3, 1] := rfl
      rw [hw]
      cases hm : parseDigits t with
      | none => simp [h10, h13]
      | some vs => simp [h10, h13]
    · rw [if_neg h13]
      simp [h10, h13]
